import Mathlib

/-!
A shallow embedding of `src/src/dmi.rs` (the DMI peer-prediction payment
pipeline) and proofs about it.

Modelling conventions:
* `usize` is modelled as `ℕ`; every `checked_*` operation carries an explicit
  `< 2 ^ 64` overflow bound, matching 64-bit `usize`.
* `f32` values are modelled as exact rationals `ℚ` (the idealised arithmetic
  the code's formulas denote); consequently the determinant of a mechanism
  matrix is Mathlib's `Matrix.det` and is total, so the `LinalgError`
  pass-through branch of the Rust code never fires in the model.
* `Result<T, DMIError>` becomes `Except DMIError T`.  The `.unwrap()` call
  inside `calculate_payments` can panic, so the aggregation functions return
  a three-way `PanicOr` outcome with an explicit `panicked` case.
* `ndarray::Array2` becomes `Array2` below: a shape plus a total entry
  function; `t()`, `split_at(Axis(0), k)` and row slicing are modelled
  index-wise, exactly as the views behave.
-/

open Nat

/-- The error enum of `dmi.rs`. -/
inductive DMIError where
  | Arithmetic
  | AnswerValsOutOfScope
  | FactorialCalc
  | FactorialMulCalc
  | Exponentiate
  | LinalgError
  | NLessThanM
  | PaymentNLessThanM
  | TooFewAgents
  | TooFewTasks
  | TooFewAgentsForPaymentCalc
  | PaymentFactorialCalc
deriving DecidableEq, Repr

/-- Outcome of a Rust function returning `Result` whose body may also panic
(`unwrap` on an `Err`). -/
inductive PanicOr (α : Type) where
  | ok (a : α)
  | err (e : DMIError)
  | panicked
deriving DecidableEq, Repr

/-- `usize::checked_sub`. -/
def checked_sub (n m : ℕ) : Option ℕ :=
  if m ≤ n then some (n - m) else none

/-- `Factorial::checked_factorial` on 64-bit `usize`. -/
def checked_factorial (n : ℕ) : Option ℕ :=
  if n ! < 2 ^ 64 then some (n !) else none

/-- `usize::checked_mul` on 64-bit `usize`. -/
def checked_mul (a b : ℕ) : Option ℕ :=
  if a * b < 2 ^ 64 then some (a * b) else none

/-- `usize::checked_pow` on 64-bit `usize`. -/
def checked_pow (a k : ℕ) : Option ℕ :=
  if a ^ k < 2 ^ 64 then some (a ^ k) else none

/-- `usize::checked_div`: fails exactly on division by zero. -/
def checked_div (a b : ℕ) : Option ℕ :=
  if b = 0 then none else some (a / b)

/-- `calculate_factorials` of `dmi.rs`: `n! / (m! * (n - m)!)`, every step
checked, the exact integer quotient finally cast to float (here `ℚ`). -/
def calculate_factorials (n m : ℕ) : Except DMIError ℚ :=
  match checked_factorial n with
  | none => .error .FactorialCalc
  | some factorial_n =>
    match checked_factorial m with
    | none => .error .FactorialCalc
    | some factorial_m =>
      match checked_sub n m with
      | none => .error .NLessThanM
      | some n_minus_m =>
        match checked_factorial n_minus_m with
        | none => .error .FactorialCalc
        | some factorial_n_minus_m =>
          match checked_mul factorial_m factorial_n_minus_m with
          | none => .error .FactorialMulCalc
          | some factorial_mul_result =>
            match checked_div factorial_n factorial_mul_result with
            | none => .error .Arithmetic
            | some q => .ok (q : ℚ)

/-- `check_answers` of `dmi.rs`: `&0 <= x && x < c`. -/
def check_answers (x c : ℕ) : Bool :=
  decide (0 ≤ x) && decide (x < c)

/-- One `*v += 1.` step of `get_mechanism`: `get_mut((x, y))` silently does
nothing when `(x, y)` is out of bounds (the `if let Some` has no `else`). -/
def bump {c : ℕ} (m : Matrix (Fin c) (Fin c) ℚ) (x y : ℕ) :
    Matrix (Fin c) (Fin c) ℚ :=
  fun i j => if i.val = x ∧ j.val = y then m i j + 1 else m i j

/-- The `for (x, y) in a.zip(b)` loop body of `get_mechanism`. -/
def mechanismLoop (c : ℕ) :
    List (ℕ × ℕ) → Matrix (Fin c) (Fin c) ℚ →
      Except DMIError (Matrix (Fin c) (Fin c) ℚ)
  | [], m => .ok m
  | (x, y) :: rest, m =>
    if check_answers x c && check_answers y c then
      mechanismLoop c rest (bump m x y)
    else
      .error .AnswerValsOutOfScope

/-- `get_mechanism` of `dmi.rs`: fold the zipped answer pair list over a
zero-initialised `c × c` matrix. -/
def get_mechanism (a b : List ℕ) (c : ℕ) :
    Except DMIError (Matrix (Fin c) (Fin c) ℚ) :=
  mechanismLoop c (a.zip b) (fun _ _ => 0)

/-- `get_mutual_information` of `dmi.rs`: `Ok(m1.det()? * m2.det()?)`.  In
exact arithmetic the determinant is total, so the `?` on it never errors. -/
def get_mutual_information (a1 b1 a2 b2 : List ℕ) (c : ℕ) :
    Except DMIError ℚ :=
  match get_mechanism a1 b1 c with
  | .error e => .error e
  | .ok m1 =>
    match get_mechanism a2 b2 c with
    | .error e => .error e
    | .ok m2 => .ok (m1.det * m2.det)

/-- `ndarray::Array2<usize>`: shape `(rows, cols)` with entry `(i, j)` given
by `data i j` for `i < rows`, `j < cols`. -/
structure Array2 where
  rows : ℕ
  cols : ℕ
  data : ℕ → ℕ → ℕ

/-- `.t()`: the transposed view. -/
def transposeA (a : Array2) : Array2 :=
  ⟨a.cols, a.rows, fun i j => a.data j i⟩

/-- `.split_at(Axis(0), k)`: the two row-blocks of a 2-D view. -/
def split_at_axis0 (a : Array2) (k : ℕ) : Array2 × Array2 :=
  (⟨k, a.cols, a.data⟩, ⟨a.rows - k, a.cols, fun i j => a.data (i + k) j⟩)

/-- `t.slice(s![i, ..])`: row `i` of a 2-D view, as a list of its `cols`
entries. -/
def rowOf (t : Array2) (i : ℕ) : List ℕ :=
  (List.range t.cols).map (fun j => t.data i j)

/-- The normalization-factor prelude of `calculate_payments`
(`dmi.rs` lines 131-140), factored out verbatim:
`(agent_n - 1) * factorial(choice_n)^2` via checked ops, then times
`calculate_factorials(t1.shape()[0], choice_n) *
 calculate_factorials(t2.shape()[0], choice_n)`.
Note `t1.shape()[0]` is the row count of the (re-transposed) half, i.e. the
number of agents, not the half's task count. -/
def norm_factor (agent_n choice_n : ℕ) (t1 t2 : Array2) :
    Except DMIError ℚ :=
  match checked_sub agent_n 1 with
  | none => .error .TooFewAgentsForPaymentCalc
  | some prelim_agents =>
    match checked_factorial choice_n with
    | none => .error .PaymentFactorialCalc
    | some fact =>
      match checked_pow fact 2 with
      | none => .error .Exponentiate
      | some raised =>
        match checked_mul prelim_agents raised with
        | none => .error .Arithmetic
        | some nf =>
          match calculate_factorials t1.rows choice_n with
          | .error e => .error e
          | .ok r1 =>
            match calculate_factorials t2.rows choice_n with
            | .error e => .error e
            | .ok r2 => .ok ((nf : ℚ) * (r1 * r2))

/-- The inner `for j in 0..agent_n` loop of `calculate_payments` for a fixed
`i`, over the remaining list of `j` values, with running sum `p`.
`continue` on `i == j`; `.unwrap()` on an `Err` from
`get_mutual_information` panics (`none`); otherwise `p += score; p /= norm;
payments.push(p)`. -/
def innerLoop (choice_n : ℕ) (t1 t2 : Array2) (norm : ℚ) (i : ℕ) :
    List ℕ → ℚ → Option (List ℚ)
  | [], _ => some []
  | j :: rest, p =>
    if i = j then innerLoop choice_n t1 t2 norm i rest p
    else
      match get_mutual_information (rowOf t1 i) (rowOf t1 j)
          (rowOf t2 i) (rowOf t2 j) choice_n with
      | .error _ => none
      | .ok s =>
        match innerLoop choice_n t1 t2 norm i rest ((p + s) / norm) with
        | none => none
        | some l => some (((p + s) / norm) :: l)

/-- The outer `for i in 0..agent_n` loop of `calculate_payments`: each agent
starts from `p = 0_f32`; the pushed values concatenate in order. -/
def outerLoop (choice_n : ℕ) (t1 t2 : Array2) (norm : ℚ) (agent_n : ℕ) :
    List ℕ → Option (List ℚ)
  | [] => some []
  | i :: rest =>
    match innerLoop choice_n t1 t2 norm i (List.range agent_n) 0 with
    | none => none
    | some l =>
      match outerLoop choice_n t1 t2 norm agent_n rest with
      | none => none
      | some r => some (l ++ r)

/-- `calculate_payments` of `dmi.rs`. -/
def calculate_payments (agent_n choice_n : ℕ) (t1 t2 : Array2) :
    PanicOr (List ℚ) :=
  match norm_factor agent_n choice_n t1 t2 with
  | .error e => .err e
  | .ok norm =>
    match outerLoop choice_n t1 t2 norm agent_n (List.range agent_n) with
    | none => .panicked
    | some payments => .ok payments

/-- The `t1` view built by `do_dmi`: transpose, split the task axis at
`half = task_n / 2`, take the first block, transpose back. -/
def first_half (answers : Array2) : Array2 :=
  transposeA (split_at_axis0 (transposeA answers) (answers.cols / 2)).1

/-- The `t2` view built by `do_dmi`: the second block of the split (it keeps
the remainder task when `task_n` is odd), transposed back. -/
def second_half (answers : Array2) : Array2 :=
  transposeA (split_at_axis0 (transposeA answers) (answers.cols / 2)).2

/-- `do_dmi` of `dmi.rs`: shape checks (`T >= 2C; N > 1;`), then split the
task axis and delegate to `calculate_payments`. -/
def do_dmi (answers : Array2) (choice_n : ℕ) : PanicOr (List ℚ) :=
  if answers.cols < 2 * choice_n then .err .TooFewTasks
  else if answers.rows ≤ 1 then .err .TooFewAgents
  else
    calculate_payments answers.rows choice_n (first_half answers)
      (second_half answers)

/-- The co-occurrence count matrix: entry `(i, j)` is the number of positions
where the zipped answer pair equals `(i, j)`.  Proved below to be exactly the
matrix `get_mechanism` returns on in-range inputs. -/
def countMat (a b : List ℕ) (c : ℕ) : Matrix (Fin c) (Fin c) ℚ :=
  fun i j =>
    (((a.zip b).countP (fun p => decide (i.val = p.1 ∧ j.val = p.2)) : ℕ) : ℚ)

/-- The per-agent payment recurrence that the inner loop of
`calculate_payments` actually implements: starting from running value `p`,
each score `s` yields the appended value `(p + s) / norm`, and that appended
value (already divided) is the running value carried into the next step. -/
def cumul_div (norm : ℚ) : ℚ → List ℚ → List ℚ
  | _, [] => []
  | p, s :: rest => ((p + s) / norm) :: cumul_div norm ((p + s) / norm) rest

/-- The normalization factor as the spec's words describe it (§4.4 step 4):
the two `ratio_of_factorials` terms take the task-half sizes
`task_n / 2` and `task_n - task_n / 2`.  Stated only for comparison with the
code's `norm_factor`, which instead passes `t1.shape()[0]` and
`t2.shape()[0]` — the row counts of the re-transposed halves. -/
def claimed_norm_factor (agent_n choice_n task_n : ℕ) : Except DMIError ℚ :=
  match checked_sub agent_n 1 with
  | none => .error .TooFewAgentsForPaymentCalc
  | some prelim_agents =>
    match checked_factorial choice_n with
    | none => .error .PaymentFactorialCalc
    | some fact =>
      match checked_pow fact 2 with
      | none => .error .Exponentiate
      | some raised =>
        match checked_mul prelim_agents raised with
        | none => .error .Arithmetic
        | some nf =>
          match calculate_factorials (task_n / 2) choice_n with
          | .error e => .error e
          | .ok r1 =>
            match calculate_factorials (task_n - task_n / 2) choice_n with
            | .error e => .error e
            | .ok r2 => .ok ((nf : ℚ) * (r1 * r2))

deriving instance DecidableEq for Except

/-! ### Helper lemmas -/

lemma countP_replicate {α : Type} (p : α → Bool) (a : α) (n : ℕ) :
    List.countP p (List.replicate n a) = if p a then n else 0 := by
  induction n with
  | zero => simp
  | succ n ih =>
    rw [List.replicate_succ, List.countP_cons, ih]
    by_cases h : p a <;> simp [h]

/-- The mechanism-building loop on an all-in-range pair list succeeds and
adds the pairwise co-occurrence counts to the accumulator. -/
lemma mechanismLoop_ok (c : ℕ) :
    ∀ l : List (ℕ × ℕ), (∀ p ∈ l, p.1 < c ∧ p.2 < c) →
      ∀ m : Matrix (Fin c) (Fin c) ℚ,
      mechanismLoop c l m =
        .ok (fun i j =>
          m i j +
            ((l.countP (fun p => decide (i.val = p.1 ∧ j.val = p.2)) : ℕ) : ℚ)) := by
  intro l
  induction l with
  | nil =>
    intro _ m
    simp only [mechanismLoop, List.countP_nil, Nat.cast_zero, add_zero]
  | cons hd tl ih =>
    intro h m
    obtain ⟨x, y⟩ := hd
    obtain ⟨hx, hy⟩ := h (x, y) (List.mem_cons_self _ _)
    have hstep : mechanismLoop c ((x, y) :: tl) m =
        mechanismLoop c tl (bump m x y) := by
      simp [mechanismLoop, check_answers, hx, hy]
    rw [hstep, ih (fun p hp => h p (List.mem_cons_of_mem _ hp)) (bump m x y)]
    congr 1
    funext i j
    simp only [bump, List.countP_cons]
    by_cases hij : i.val = x ∧ j.val = y
    · rw [if_pos hij]
      simp [hij.1, hij.2]
      ring
    · rw [if_neg hij]
      simp only [decide_eq_true_eq]
      rw [if_neg hij]
      simp

/-- `get_mechanism` on in-range inputs returns the co-occurrence count
matrix. -/
lemma get_mechanism_ok (a b : List ℕ) (c : ℕ)
    (h : ∀ p ∈ a.zip b, p.1 < c ∧ p.2 < c) :
    get_mechanism a b c = .ok (countMat a b c) := by
  rw [get_mechanism, mechanismLoop_ok c _ h]
  congr 1
  funext i j
  simp [countMat]

/-- `get_mutual_information` on in-range inputs returns the product of the
two count-matrix determinants. -/
lemma get_mutual_information_ok (a1 b1 a2 b2 : List ℕ) (c : ℕ)
    (h1 : ∀ p ∈ a1.zip b1, p.1 < c ∧ p.2 < c)
    (h2 : ∀ p ∈ a2.zip b2, p.1 < c ∧ p.2 < c) :
    get_mutual_information a1 b1 a2 b2 c =
      .ok ((countMat a1 b1 c).det * (countMat a2 b2 c).det) := by
  simp [get_mutual_information, get_mechanism_ok _ _ _ h1,
    get_mechanism_ok _ _ _ h2]

/-- The pairwise score of two all-zero single-task halves at `choice_n = 1`. -/
lemma gmi_zeros : get_mutual_information [0] [0] [0] [0] 1 = .ok 1 := by
  have h1 : get_mechanism [0] [0] 1 = .ok (bump (fun _ _ => 0) 0 0) := rfl
  simp [get_mutual_information, h1, Matrix.det_fin_one, bump]

/-- The inner loop, when every visited pairwise score succeeds, produces the
repeated-division sequence `cumul_div`. -/
lemma innerLoop_eq (choice_n : ℕ) (t1 t2 : Array2) (norm : ℚ) (i : ℕ)
    (s : ℕ → ℚ) :
    ∀ js : List ℕ,
      (∀ j ∈ js, i ≠ j →
        get_mutual_information (rowOf t1 i) (rowOf t1 j) (rowOf t2 i)
          (rowOf t2 j) choice_n = .ok (s j)) →
      ∀ p : ℚ,
      innerLoop choice_n t1 t2 norm i js p =
        some (cumul_div norm p
          ((js.filter (fun j => decide (i ≠ j))).map s)) := by
  intro js
  induction js with
  | nil => intro _ p; simp [innerLoop, cumul_div]
  | cons j rest ih =>
    intro hs p
    have hrest := fun j' hj' => hs j' (List.mem_cons_of_mem _ hj')
    by_cases hij : i = j
    · have hskip : innerLoop choice_n t1 t2 norm i (j :: rest) p =
          innerLoop choice_n t1 t2 norm i rest p := by
        simp [innerLoop, hij]
      rw [hskip, ih hrest p]
      simp [hij]
    · have hj := hs j (List.mem_cons_self _ _) hij
      have hstep : innerLoop choice_n t1 t2 norm i (j :: rest) p =
          match innerLoop choice_n t1 t2 norm i rest ((p + s j) / norm) with
          | none => none
          | some l => some (((p + s j) / norm) :: l) := by
        simp [innerLoop, hij, hj]
      rw [hstep, ih hrest ((p + s j) / norm)]
      simp [hij, cumul_div]

/-- Any successful inner-loop run pushes one value per visited `j ≠ i`. -/
lemma innerLoop_length (choice_n : ℕ) (t1 t2 : Array2) (norm : ℚ) (i : ℕ) :
    ∀ (js : List ℕ) (p : ℚ) (l : List ℚ),
      innerLoop choice_n t1 t2 norm i js p = some l →
      l.length = (js.filter (fun j => decide (i ≠ j))).length := by
  intro js
  induction js with
  | nil =>
    intro p l h
    simp [innerLoop] at h
    simp [← h]
  | cons j rest ih =>
    intro p l h
    by_cases hij : i = j
    · simp only [innerLoop, if_pos hij] at h
      rw [ih p l h]
      simp [hij]
    · rw [innerLoop, if_neg hij] at h
      cases hgmi : get_mutual_information (rowOf t1 i) (rowOf t1 j)
          (rowOf t2 i) (rowOf t2 j) choice_n with
      | error e => rw [hgmi] at h; simp at h
      | ok s =>
        rw [hgmi] at h
        simp only [] at h
        cases hrec : innerLoop choice_n t1 t2 norm i rest ((p + s) / norm) with
        | none => rw [hrec] at h; simp at h
        | some l' =>
          rw [hrec] at h
          simp only [Option.some.injEq] at h
          rw [← h]
          simp [List.filter_cons, hij, ih _ _ hrec]

/-- The outer loop, when every pairwise score succeeds, maps each agent to
its `cumul_div` block and concatenates. -/
lemma outerLoop_eq (choice_n : ℕ) (t1 t2 : Array2) (norm : ℚ)
    (agent_n : ℕ) (s : ℕ → ℕ → ℚ)
    (hs : ∀ i < agent_n, ∀ j < agent_n, i ≠ j →
      get_mutual_information (rowOf t1 i) (rowOf t1 j) (rowOf t2 i)
        (rowOf t2 j) choice_n = .ok (s i j)) :
    ∀ is : List ℕ, (∀ i ∈ is, i < agent_n) →
      outerLoop choice_n t1 t2 norm agent_n is =
        some ((is.map (fun i => cumul_div norm 0
          (((List.range agent_n).filter (fun j => decide (i ≠ j))).map
            (s i)))).flatten) := by
  intro is
  induction is with
  | nil => intro _; simp [outerLoop]
  | cons i rest ih =>
    intro his
    have hi : i < agent_n := his i (List.mem_cons_self _ _)
    have hin : innerLoop choice_n t1 t2 norm i (List.range agent_n) 0 =
        some (cumul_div norm 0
          (((List.range agent_n).filter (fun j => decide (i ≠ j))).map
            (s i))) :=
      innerLoop_eq choice_n t1 t2 norm i (s i) (List.range agent_n)
        (fun j hj hne => hs i hi j (List.mem_range.mp hj) hne) 0
    rw [outerLoop, hin, ih (fun i' hi' => his i' (List.mem_cons_of_mem _ hi'))]
    simp

/-- Any successful outer-loop run is a concatenation of one successful
inner-loop block per listed agent. -/
lemma outerLoop_blocks (choice_n : ℕ) (t1 t2 : Array2) (norm : ℚ)
    (agent_n : ℕ) :
    ∀ (is : List ℕ) (L : List ℚ),
      outerLoop choice_n t1 t2 norm agent_n is = some L →
      ∃ blocks : List (List ℚ), L = blocks.flatten ∧
        blocks.length = is.length ∧
        ∀ bl ∈ blocks, ∃ i ∈ is,
          innerLoop choice_n t1 t2 norm i (List.range agent_n) 0 =
            some bl := by
  intro is
  induction is with
  | nil =>
    intro L h
    simp [outerLoop] at h
    exact ⟨[], by simp [← h], by simp, by simp⟩
  | cons i rest ih =>
    intro L h
    cases hin : innerLoop choice_n t1 t2 norm i (List.range agent_n) 0 with
    | none => rw [outerLoop, hin] at h; simp at h
    | some l =>
      rw [outerLoop, hin] at h
      cases hrest : outerLoop choice_n t1 t2 norm agent_n rest with
      | none => rw [hrest] at h; simp at h
      | some r =>
        rw [hrest] at h
        simp only [Option.some.injEq] at h
        obtain ⟨blocks, hb1, hb2, hb3⟩ := ih r hrest
        refine ⟨l :: blocks, ?_, ?_, ?_⟩
        · simp [← h, hb1]
        · simp [hb2]
        · intro bl hbl
          rcases List.mem_cons.mp hbl with rfl | hbl'
          · exact ⟨i, List.mem_cons_self _ _, hin⟩
          · obtain ⟨i', hi', hinn⟩ := hb3 bl hbl'
            exact ⟨i', List.mem_cons_of_mem _ hi', hinn⟩

/-- `0..n` with one element `i < n` removed has `n - 1` elements. -/
lemma length_filter_range_ne (i n : ℕ) (h : i < n) :
    ((List.range n).filter (fun j => decide (i ≠ j))).length = n - 1 := by
  induction n with
  | zero => omega
  | succ n ih =>
    rw [List.range_succ, List.filter_append]
    by_cases hin : i < n
    · have hlast : (List.filter (fun j => decide (i ≠ j)) [n]).length = 1 := by
        have : i ≠ n := by omega
        simp [this]
      rw [List.length_append, ih hin, hlast]
      omega
    · have hi : i = n := by omega
      subst hi
      have hlast : (List.filter (fun j => decide (i ≠ j)) [i]).length = 0 := by
        simp
      have hall : (List.range i).filter (fun j => decide (i ≠ j)) =
          List.range i := by
        rw [List.filter_eq_self]
        intro a ha
        have : a < i := List.mem_range.mp ha
        simp
        omega
      rw [List.length_append, hall, hlast, List.length_range]
      omega

/-- A concatenation of equal-length blocks has their total length. -/
lemma length_flatten_const {α : Type} (bs : List (List α)) (k : ℕ)
    (h : ∀ b ∈ bs, b.length = k) : bs.flatten.length = bs.length * k := by
  induction bs with
  | nil => simp
  | cons b rest ih =>
    rw [List.flatten_cons, List.length_append, h b (List.mem_cons_self _ _),
      ih (fun b hb => h b (List.mem_cons_of_mem _ hb)), List.length_cons]
    ring

/-- Evaluation of `norm_factor` when every checked step succeeds. -/
lemma norm_factor_ok (agent_n choice_n : ℕ) (t1 t2 : Array2) (q1 q2 : ℚ)
    (h1 : 1 ≤ agent_n) (h2 : choice_n ! < 2 ^ 64)
    (h3 : choice_n ! ^ 2 < 2 ^ 64)
    (h4 : (agent_n - 1) * choice_n ! ^ 2 < 2 ^ 64)
    (hcf1 : calculate_factorials t1.rows choice_n = .ok q1)
    (hcf2 : calculate_factorials t2.rows choice_n = .ok q2) :
    norm_factor agent_n choice_n t1 t2 =
      .ok ((((agent_n - 1) * choice_n ! ^ 2 : ℕ) : ℚ) * (q1 * q2)) := by
  simp only [norm_factor, checked_sub, checked_factorial, checked_pow,
    checked_mul, if_pos h1, if_pos h2, if_pos h3, if_pos h4, hcf1, hcf2]

/-- `do_dmi` past its two shape checks delegates to `calculate_payments`
on the two re-transposed halves. -/
lemma do_dmi_eq (answers : Array2) (choice_n : ℕ)
    (h1 : ¬ answers.cols < 2 * choice_n) (h2 : ¬ answers.rows ≤ 1) :
    do_dmi answers choice_n =
      calculate_payments answers.rows choice_n (first_half answers)
        (second_half answers) := by
  rw [do_dmi, if_neg h1, if_neg h2]

lemma first_half_rows (answers : Array2) :
    (first_half answers).rows = answers.rows := rfl

lemma second_half_rows (answers : Array2) :
    (second_half answers).rows = answers.rows := rfl

lemma first_half_cols (answers : Array2) :
    (first_half answers).cols = answers.cols / 2 := rfl

lemma second_half_cols (answers : Array2) :
    (second_half answers).cols = answers.cols - answers.cols / 2 := rfl

lemma first_half_data (answers : Array2) (i j : ℕ) :
    (first_half answers).data i j = answers.data i j := rfl

lemma second_half_data (answers : Array2) (i j : ℕ) :
    (second_half answers).data i j =
      answers.data i (j + answers.cols / 2) := rfl

/-- Every element of a row slice is an entry of that row, at a column below
the view's width. -/
lemma mem_rowOf (t : Array2) (i v : ℕ) (h : v ∈ rowOf t i) :
    ∃ j, j < t.cols ∧ v = t.data i j := by
  simp only [rowOf, List.mem_map, List.mem_range] at h
  obtain ⟨j, hj, rfl⟩ := h
  exact ⟨j, hj, rfl⟩

/-- Evaluation of `calculate_payments` when the normalization factor and
every pairwise score succeed: the output is the concatenation, over agents
`i` in order, of the repeated-division sequences of their scores. -/
lemma calculate_payments_eq (agent_n choice_n : ℕ) (t1 t2 : Array2)
    (norm : ℚ) (s : ℕ → ℕ → ℚ)
    (hnorm : norm_factor agent_n choice_n t1 t2 = .ok norm)
    (hs : ∀ i < agent_n, ∀ j < agent_n, i ≠ j →
      get_mutual_information (rowOf t1 i) (rowOf t1 j) (rowOf t2 i)
        (rowOf t2 j) choice_n = .ok (s i j)) :
    calculate_payments agent_n choice_n t1 t2 =
      .ok (((List.range agent_n).map (fun i => cumul_div norm 0
        (((List.range agent_n).filter (fun j => decide (i ≠ j))).map
          (s i)))).flatten) := by
  rw [calculate_payments, hnorm]
  dsimp only
  rw [outerLoop_eq choice_n t1 t2 norm agent_n s hs (List.range agent_n)
    (fun i hi => List.mem_range.mp hi)]

/-- Inversion: a successful `calculate_payments` run had a successful
normalization factor and a successful outer loop. -/
lemma calculate_payments_ok_inv (agent_n choice_n : ℕ) (t1 t2 : Array2)
    (L : List ℚ)
    (h : calculate_payments agent_n choice_n t1 t2 = .ok L) :
    ∃ norm : ℚ, norm_factor agent_n choice_n t1 t2 = .ok norm ∧
      outerLoop choice_n t1 t2 norm agent_n (List.range agent_n) =
        some L := by
  cases hn : norm_factor agent_n choice_n t1 t2 with
  | error e => rw [calculate_payments, hn] at h; simp at h
  | ok norm =>
    rw [calculate_payments, hn] at h
    dsimp only at h
    cases ho : outerLoop choice_n t1 t2 norm agent_n (List.range agent_n) with
    | none => rw [ho] at h; simp at h
    | some pays =>
      rw [ho] at h
      simp only [PanicOr.ok.injEq] at h
      exact ⟨norm, rfl, by rw [ho, h]⟩

/-- Inversion: a successful `do_dmi` run passed both shape checks and came
from `calculate_payments` on the two halves. -/
lemma do_dmi_ok_inv (answers : Array2) (choice_n : ℕ) (L : List ℚ)
    (h : do_dmi answers choice_n = .ok L) :
    ¬ answers.cols < 2 * choice_n ∧ 1 < answers.rows ∧
      calculate_payments answers.rows choice_n (first_half answers)
        (second_half answers) = .ok L := by
  by_cases h1 : answers.cols < 2 * choice_n
  · rw [do_dmi, if_pos h1] at h
    simp at h
  · by_cases h2 : answers.rows ≤ 1
    · rw [do_dmi, if_neg h1, if_pos h2] at h
      simp at h
    · exact ⟨h1, by omega, by rw [← do_dmi_eq answers choice_n h1 h2]; exact h⟩

/-- Zipping truncates to the shorter list. -/
lemma zip_eq_zip_take (a b : List ℕ) :
    a.zip b = (a.take (min a.length b.length)).zip
      (b.take (min a.length b.length)) := by
  induction a generalizing b with
  | nil => simp
  | cons x xs ih =>
    cases b with
    | nil => simp
    | cons y ys =>
      simp only [List.length_cons]
      rw [show min (xs.length + 1) (ys.length + 1) =
        min xs.length ys.length + 1 by omega]
      simp only [List.take_succ_cons, List.zip_cons_cons]
      rw [← ih ys]

/-- Concrete run: two agents, two tasks, all answers `0`, one category.
Each pairwise score is `1`, the norm is `4`, each agent gets one value. -/
lemma do_dmi_two_agents_eval :
    do_dmi ⟨2, 2, fun _ _ => 0⟩ 1 = .ok [1/4, 1/4] := by
  simp [do_dmi, calculate_payments, norm_factor, outerLoop, innerLoop,
    gmi_zeros, rowOf, transposeA, split_at_axis0, first_half, second_half,
    checked_sub, checked_factorial, checked_mul, checked_pow, checked_div,
    calculate_factorials, List.range_succ, Nat.factorial]
  norm_num

/-- Concrete run: three agents, two tasks, all answers `0`, one category.
Each pairwise score is `1` and the norm is `18`, yet the second value of
each agent's block is `(1/18 + 1)/18 = 19/324`: the running value is divided
by the norm again at every push. -/
lemma do_dmi_three_agents_eval :
    do_dmi ⟨3, 2, fun _ _ => 0⟩ 1 =
      .ok [1/18, 19/324, 1/18, 19/324, 1/18, 19/324] := by
  simp [do_dmi, calculate_payments, norm_factor, outerLoop, innerLoop,
    gmi_zeros, rowOf, transposeA, split_at_axis0, first_half, second_half,
    checked_sub, checked_factorial, checked_mul, checked_pow, checked_div,
    calculate_factorials, List.range_succ, Nat.factorial]
  norm_num

/-- The norm factor computed inside that three-agent run: both
`calculate_factorials` arguments are the agent count `3`, giving
`(3-1) * (1!)^2 * 3 * 3 = 18`. -/
lemma norm_factor_three_agents_eval :
    norm_factor 3 1 (first_half ⟨3, 2, fun _ _ => 0⟩)
      (second_half ⟨3, 2, fun _ _ => 0⟩) = .ok 18 := by
  simp [norm_factor, first_half, second_half, transposeA, split_at_axis0,
    checked_sub, checked_factorial, checked_mul, checked_pow, checked_div,
    calculate_factorials, Nat.factorial]
  norm_num

/-! ### Claim theorems -/

/-- C1: the mutual-information evaluator does NOT take an absolute value:
on the anti-correlated/correlated pair below it returns the signed product
`det(m1) * det(m2) = -1`, a negative number, contradicting the claimed
`|det(m1) * det(m2)|` (and the code's own comment
`DMI(X; Y ) = |det(UX,Y)|`). -/
theorem get_mutual_information_signed_negative :
    get_mutual_information [0, 1] [1, 0] [0, 1] [0, 1] 2 = .ok (-1) ∧
      ((-1 : ℚ) < 0) := by
  refine ⟨?_, by norm_num⟩
  have h1 : get_mechanism [0, 1] [1, 0] 2 =
      .ok (bump (bump (fun _ _ => 0) 0 1) 1 0) := rfl
  have h2 : get_mechanism [0, 1] [0, 1] 2 =
      .ok (bump (bump (fun _ _ => 0) 0 0) 1 1) := rfl
  simp [get_mutual_information, h1, h2, Matrix.det_fin_two, bump]

/-- C2: a per-pair failure inside the double loop does not surface as a
typed error: `calculate_payments` calls `.unwrap()` on the pairwise score,
so an out-of-range answer makes the whole aggregation panic instead of
returning `Err(AnswerValsOutOfScope)`. -/
theorem do_dmi_panics_on_per_pair_failure :
    do_dmi ⟨2, 2, fun i _ => if i = 0 then 1 else 0⟩ 1 = .panicked := by
  simp [do_dmi, calculate_payments, norm_factor, outerLoop, innerLoop,
    get_mutual_information, get_mechanism, mechanismLoop, check_answers,
    bump, rowOf, transposeA, split_at_axis0, first_half, second_half,
    checked_sub, checked_factorial, checked_mul, checked_pow, checked_div,
    calculate_factorials, List.range_succ, Nat.factorial]

/-- C4 counterexample: `calculate_factorials` computes `n!` and `m!` before
the checked subtraction, so for `m > n` large enough that `m!` overflows it
fails with `FactorialCalc`, not `NLessThanM`. -/
theorem calculate_factorials_overflow_shadows_nlessthanm :
    calculate_factorials 20 21 = .error .FactorialCalc ∧
      calculate_factorials 20 21 ≠ .error .NLessThanM := by
  constructor
  · decide
  · decide

/-- C4 (amended): for `m > n`, the `NLessThanM` error is returned provided
`m!` (and hence `n!`) is representable in 64 bits; otherwise the earlier
factorial overflow masks it. -/
theorem calculate_factorials_nlessthanm (n m : ℕ) (h1 : n < m)
    (h2 : m ! < 2 ^ 64) :
    calculate_factorials n m = .error .NLessThanM := by
  have hn : n ! < 2 ^ 64 :=
    lt_of_le_of_lt (Nat.factorial_le (le_of_lt h1)) h2
  have hsub : ¬ m ≤ n := by omega
  simp only [calculate_factorials, checked_factorial, checked_sub,
    if_pos hn, if_pos h2, if_neg hsub]

/-- Witness for C4's amended theorem at `n = 1, m = 2`. -/
theorem calculate_factorials_nlessthanm_witness :
    calculate_factorials 1 2 = .error .NLessThanM :=
  calculate_factorials_nlessthanm 1 2 (by norm_num)
    (by norm_num [Nat.factorial])

/-- C10: the final checked division of `calculate_factorials` divides by
`m! * (n-m)! ≥ 1` whenever the earlier steps succeeded, so the
`DMIError::Arithmetic` branch is unreachable: no input produces it. -/
theorem calculate_factorials_arithmetic_unreachable (n m : ℕ) :
    calculate_factorials n m ≠ .error .Arithmetic := by
  intro h
  cases hn : checked_factorial n with
  | none => simp [calculate_factorials, hn] at h
  | some fn =>
    cases hm : checked_factorial m with
    | none => simp [calculate_factorials, hn, hm] at h
    | some fm =>
      cases hs : checked_sub n m with
      | none => simp [calculate_factorials, hn, hm, hs] at h
      | some d =>
        cases hd : checked_factorial d with
        | none => simp [calculate_factorials, hn, hm, hs, hd] at h
        | some fd =>
          cases hmul : checked_mul fm fd with
          | none => simp [calculate_factorials, hn, hm, hs, hd, hmul] at h
          | some prod =>
            have hfm : fm = m ! := by
              by_cases hc : m ! < 2 ^ 64
              · rw [checked_factorial, if_pos hc] at hm
                exact (Option.some.injEq _ _ ▸ hm).symm
              · rw [checked_factorial, if_neg hc] at hm
                cases hm
            have hfd : fd = d ! := by
              by_cases hc : d ! < 2 ^ 64
              · rw [checked_factorial, if_pos hc] at hd
                exact (Option.some.injEq _ _ ▸ hd).symm
              · rw [checked_factorial, if_neg hc] at hd
                cases hd
            have hprod : prod = fm * fd := by
              by_cases hc : fm * fd < 2 ^ 64
              · rw [checked_mul, if_pos hc] at hmul
                exact (Option.some.injEq _ _ ▸ hmul).symm
              · rw [checked_mul, if_neg hc] at hmul
                cases hmul
            have hpos : prod ≠ 0 := by
              rw [hprod, hfm, hfd]
              exact Nat.mul_ne_zero (Nat.factorial_pos m).ne'
                (Nat.factorial_pos d).ne'
            simp [calculate_factorials, hn, hm, hs, hd, hmul, checked_div,
              hpos] at h

/-- C8: on two constant vectors of length `L` all equal to category
`k < choice_n`, `get_mechanism` succeeds; the returned matrix has `L` at
`(k, k)` and `0` everywhere else, and its determinant is `0` whenever
`choice_n > 1` (some other diagonal row is all zero). -/
theorem get_mechanism_constant_vectors (L k choice_n : ℕ)
    (hk : k < choice_n) :
    ∃ M : Matrix (Fin choice_n) (Fin choice_n) ℚ,
      get_mechanism (List.replicate L k) (List.replicate L k) choice_n =
        .ok M ∧
      (∀ i j : Fin choice_n,
        M i j = if i.val = k ∧ j.val = k then (L : ℚ) else 0) ∧
      (1 < choice_n → M.det = 0) := by
  have hb : ∀ p ∈ (List.replicate L k).zip (List.replicate L k),
      p.1 < choice_n ∧ p.2 < choice_n := by
    intro p hp
    obtain ⟨x, y⟩ := p
    obtain ⟨h1, h2⟩ := List.of_mem_zip hp
    rw [List.eq_of_mem_replicate h1, List.eq_of_mem_replicate h2]
    exact ⟨hk, hk⟩
  have hentry : ∀ i j : Fin choice_n,
      countMat (List.replicate L k) (List.replicate L k) choice_n i j =
        if i.val = k ∧ j.val = k then (L : ℚ) else 0 := by
    intro i j
    simp only [countMat, List.zip_replicate, min_self, countP_replicate]
    by_cases hij : i.val = k ∧ j.val = k
    · simp [hij.1, hij.2]
    · rw [if_neg hij]
      have : ¬ (decide (i.val = k ∧ j.val = k) = true) := by
        simpa using hij
      rw [if_neg this]
      simp
  refine ⟨countMat (List.replicate L k) (List.replicate L k) choice_n,
    get_mechanism_ok _ _ _ hb, hentry, ?_⟩
  intro hc
  have hrow : ∃ r : Fin choice_n, r.val ≠ k := by
    by_cases hk0 : k = 0
    · exact ⟨⟨1, hc⟩, by simp [hk0]⟩
    · exact ⟨⟨0, by omega⟩, by simpa using fun h => hk0 h.symm⟩
  obtain ⟨r, hr⟩ := hrow
  apply Matrix.det_eq_zero_of_row_eq_zero r
  intro j
  rw [hentry r j, if_neg (fun hcon => hr hcon.1)]

/-- Witness for C8 at `L = 3`, `k = 0`, `choice_n = 2`. -/
theorem get_mechanism_constant_vectors_witness :
    ∃ M : Matrix (Fin 2) (Fin 2) ℚ,
      get_mechanism (List.replicate 3 0) (List.replicate 3 0) 2 = .ok M ∧
      (∀ i j : Fin 2,
        M i j = if i.val = 0 ∧ j.val = 0 then (3 : ℚ) else 0) ∧
      (1 < 2 → M.det = 0) :=
  get_mechanism_constant_vectors 3 0 2 (by norm_num)

/-- C9: `get_mechanism` never compares the lengths of its two inputs: with
all entries in range it succeeds even on unequal lengths, and the zip
truncates to the first `min(len a, len b)` pairs — the longer tail is
silently ignored. -/
theorem get_mechanism_ignores_unequal_lengths (a b : List ℕ) (c : ℕ)
    (ha : ∀ v ∈ a, v < c) (hb : ∀ v ∈ b, v < c) :
    ∃ M : Matrix (Fin c) (Fin c) ℚ,
      get_mechanism a b c = .ok M ∧
      get_mechanism a b c =
        get_mechanism (a.take (min a.length b.length))
          (b.take (min a.length b.length)) c ∧
      (a.zip b).length = min a.length b.length ∧
      ∀ i j : Fin c, M i j =
        (((a.zip b).countP
          (fun p => decide (i.val = p.1 ∧ j.val = p.2)) : ℕ) : ℚ) := by
  have hbounds : ∀ p ∈ a.zip b, p.1 < c ∧ p.2 < c := by
    intro p hp
    obtain ⟨x, y⟩ := p
    obtain ⟨h1, h2⟩ := List.of_mem_zip hp
    exact ⟨ha x h1, hb y h2⟩
  refine ⟨countMat a b c, get_mechanism_ok a b c hbounds, ?_,
    List.length_zip a b, fun i j => rfl⟩
  rw [get_mechanism, get_mechanism, ← zip_eq_zip_take]

/-- Witness for C9 with unequal lengths `3` and `2`. -/
theorem get_mechanism_ignores_unequal_lengths_witness :
    ∃ M : Matrix (Fin 2) (Fin 2) ℚ,
      get_mechanism [0, 1, 0] [1, 0] 2 = .ok M ∧
      get_mechanism [0, 1, 0] [1, 0] 2 =
        get_mechanism ([0, 1, 0].take (min (List.length [0, 1, 0])
          (List.length [1, 0])))
          ([1, 0].take (min (List.length [0, 1, 0])
            (List.length [1, 0]))) 2 ∧
      (([0, 1, 0] : List ℕ).zip [1, 0]).length =
        min (List.length [0, 1, 0]) (List.length [1, 0]) ∧
      ∀ i j : Fin 2, M i j =
        (((([0, 1, 0] : List ℕ).zip [1, 0]).countP
          (fun p => decide (i.val = p.1 ∧ j.val = p.2)) : ℕ) : ℚ) :=
  get_mechanism_ignores_unequal_lengths [0, 1, 0] [1, 0] 2
    (by decide) (by decide)

/-- C3 counterexample: three all-zero agents, two tasks, one category.  The
norm is `18` and every pairwise score is `1`, so under the claim the second
value appended for agent 0 would be `(1 + 1) / 18`; the code instead appends
`(1/18 + 1) / 18 = 19/324`, because the running value it adds to has already
been divided by the norm. -/
theorem calculate_payments_not_plain_partial_sum :
    do_dmi ⟨3, 2, fun _ _ => 0⟩ 1 =
      .ok [1/18, 19/324, 1/18, 19/324, 1/18, 19/324] ∧
    norm_factor 3 1 (first_half ⟨3, 2, fun _ _ => 0⟩)
      (second_half ⟨3, 2, fun _ _ => 0⟩) = .ok 18 ∧
    get_mutual_information [0] [0] [0] [0] 1 = .ok 1 ∧
    ((19 : ℚ) / 324 ≠ (1 + 1) / 18) :=
  ⟨do_dmi_three_agents_eval, norm_factor_three_agents_eval, gmi_zeros,
    by norm_num⟩

/-- C3 (amended): in a successful run the k-th value appended for agent `i`
is `(previous appended value + k-th score) / norm` starting from `0` — the
repeated-division recurrence `cumul_div` — not the plain partial sum of
scores divided once by the norm. -/
theorem calculate_payments_repeated_division (agent_n choice_n : ℕ)
    (t1 t2 : Array2) (norm : ℚ) (s : ℕ → ℕ → ℚ)
    (hnorm : norm_factor agent_n choice_n t1 t2 = .ok norm)
    (hs : ∀ i < agent_n, ∀ j < agent_n, i ≠ j →
      get_mutual_information (rowOf t1 i) (rowOf t1 j) (rowOf t2 i)
        (rowOf t2 j) choice_n = .ok (s i j)) :
    calculate_payments agent_n choice_n t1 t2 =
      .ok (((List.range agent_n).map (fun i => cumul_div norm 0
        (((List.range agent_n).filter (fun j => decide (i ≠ j))).map
          (s i)))).flatten) :=
  calculate_payments_eq agent_n choice_n t1 t2 norm s hnorm hs

/-- Witness for C3's amended theorem: two all-zero agents, one category,
norm `4`, all scores `1`. -/
theorem calculate_payments_repeated_division_witness :
    calculate_payments 2 1 ⟨2, 1, fun _ _ => 0⟩ ⟨2, 1, fun _ _ => 0⟩ =
      .ok (((List.range 2).map (fun i => cumul_div 4 0
        (((List.range 2).filter (fun j => decide (i ≠ j))).map
          (fun _ => (1 : ℚ))))).flatten) := by
  have hrow : ∀ i : ℕ, rowOf ⟨2, 1, fun _ _ => 0⟩ i = [0] := by
    intro i
    rfl
  refine calculate_payments_repeated_division 2 1 _ _ 4
    (fun _ _ => (1 : ℚ)) ?_ ?_
  · simp [norm_factor, checked_sub, checked_factorial, checked_pow,
      checked_mul, checked_div, calculate_factorials, Nat.factorial]
    norm_num
  · intro i _ j _ _
    rw [hrow i, hrow j]
    exact gmi_zeros

/-- C5: with more than one agent, `compute_payments` rejects
`task_n = 2 * choice_n - 1` with `TooFewTasks`, and succeeds at
`task_n = 2 * choice_n` when all entries are in range and the checked
normalization arithmetic does not overflow or error. -/
theorem do_dmi_toofewtasks_boundary (answers : Array2) (choice_n : ℕ)
    (ha : 1 < answers.rows) :
    (answers.cols + 1 = 2 * choice_n →
      do_dmi answers choice_n = .err .TooFewTasks) ∧
    (answers.cols = 2 * choice_n →
      (∀ i < answers.rows, ∀ j < answers.cols,
        answers.data i j < choice_n) →
      choice_n ! ^ 2 < 2 ^ 64 →
      (answers.rows - 1) * choice_n ! ^ 2 < 2 ^ 64 →
      ∀ q : ℚ, calculate_factorials answers.rows choice_n = .ok q →
      ∃ L, do_dmi answers choice_n = .ok L) := by
  constructor
  · intro htask
    have hlt : answers.cols < 2 * choice_n := by omega
    rw [do_dmi, if_pos hlt]
  · intro htask hin hf2 hmul q hcf
    have h1 : ¬ answers.cols < 2 * choice_n := by omega
    have h2 : ¬ answers.rows ≤ 1 := by omega
    have hfac : choice_n ! < 2 ^ 64 :=
      lt_of_le_of_lt (Nat.le_self_pow two_ne_zero _) hf2
    have hnorm := norm_factor_ok answers.rows choice_n
      (first_half answers) (second_half answers) q q (by omega) hfac hf2
      hmul (by rw [first_half_rows]; exact hcf)
      (by rw [second_half_rows]; exact hcf)
    have hs : ∀ i < answers.rows, ∀ j < answers.rows, i ≠ j →
        get_mutual_information (rowOf (first_half answers) i)
          (rowOf (first_half answers) j)
          (rowOf (second_half answers) i)
          (rowOf (second_half answers) j) choice_n =
          .ok ((countMat (rowOf (first_half answers) i)
              (rowOf (first_half answers) j) choice_n).det *
            (countMat (rowOf (second_half answers) i)
              (rowOf (second_half answers) j) choice_n).det) := by
      intro i hi j hj _
      apply get_mutual_information_ok
      · intro p hp
        obtain ⟨x, y⟩ := p
        obtain ⟨hx, hy⟩ := List.of_mem_zip hp
        obtain ⟨jx, hjx, rfl⟩ := mem_rowOf _ _ _ hx
        obtain ⟨jy, hjy, rfl⟩ := mem_rowOf _ _ _ hy
        rw [first_half_cols] at hjx hjy
        rw [first_half_data, first_half_data]
        exact ⟨hin i hi jx (by omega), hin j hj jy (by omega)⟩
      · intro p hp
        obtain ⟨x, y⟩ := p
        obtain ⟨hx, hy⟩ := List.of_mem_zip hp
        obtain ⟨jx, hjx, rfl⟩ := mem_rowOf _ _ _ hx
        obtain ⟨jy, hjy, rfl⟩ := mem_rowOf _ _ _ hy
        rw [second_half_cols] at hjx hjy
        rw [second_half_data, second_half_data]
        exact ⟨hin i hi _ (by omega), hin j hj _ (by omega)⟩
    rw [do_dmi_eq answers choice_n h1 h2]
    exact ⟨_, calculate_payments_eq answers.rows choice_n
      (first_half answers) (second_half answers) _ _ hnorm hs⟩

/-- Witness for C5: the boundary rejection at `task_n = 1 = 2·1 - 1` and the
success at `task_n = 2 = 2·1`, both with two agents and `choice_n = 1`. -/
theorem do_dmi_toofewtasks_boundary_witness :
    do_dmi ⟨2, 1, fun _ _ => 0⟩ 1 = .err .TooFewTasks ∧
      ∃ L, do_dmi ⟨2, 2, fun _ _ => 0⟩ 1 = .ok L := by
  constructor
  · exact (do_dmi_toofewtasks_boundary ⟨2, 1, fun _ _ => 0⟩ 1
      (by norm_num)).1 rfl
  · refine (do_dmi_toofewtasks_boundary ⟨2, 2, fun _ _ => 0⟩ 1
      (by norm_num)).2 rfl (fun i _ j _ => by norm_num)
      (by norm_num [Nat.factorial]) (by norm_num [Nat.factorial]) 2 ?_
    simp [calculate_factorials, checked_factorial, checked_sub, checked_mul,
      checked_div, Nat.factorial]

/-- C6: every successful `compute_payments` run returns exactly
`agent_n * (agent_n - 1)` values, as `agent_n` contiguous blocks of
`agent_n - 1` values each (one block per agent, one value per other
agent in inner-loop order). -/
theorem do_dmi_output_length (answers : Array2) (choice_n : ℕ) (L : List ℚ)
    (h : do_dmi answers choice_n = .ok L) :
    L.length = answers.rows * (answers.rows - 1) ∧
    ∃ blocks : List (List ℚ), L = blocks.flatten ∧
      blocks.length = answers.rows ∧
      ∀ bl ∈ blocks, bl.length = answers.rows - 1 := by
  obtain ⟨_, _, hcp⟩ := do_dmi_ok_inv answers choice_n L h
  obtain ⟨norm, hnorm, ho⟩ := calculate_payments_ok_inv _ _ _ _ _ hcp
  obtain ⟨blocks, hb1, hb2, hb3⟩ := outerLoop_blocks _ _ _ _ _ _ _ ho
  have hlen : ∀ bl ∈ blocks, bl.length = answers.rows - 1 := by
    intro bl hbl
    obtain ⟨i, hi, hinn⟩ := hb3 bl hbl
    rw [innerLoop_length _ _ _ _ _ _ _ _ hinn,
      length_filter_range_ne i answers.rows (List.mem_range.mp hi)]
  have hbl2 : blocks.length = answers.rows := by
    rw [hb2, List.length_range]
  refine ⟨?_, blocks, hb1, hbl2, hlen⟩
  rw [hb1, length_flatten_const blocks _ hlen, hbl2]

/-- Witness for C6 at the successful two-agent run. -/
theorem do_dmi_output_length_witness :
    ([(1 : ℚ)/4, 1/4]).length = 2 * (2 - 1) ∧
    ∃ blocks : List (List ℚ), [(1 : ℚ)/4, 1/4] = blocks.flatten ∧
      blocks.length = 2 ∧ ∀ bl ∈ blocks, bl.length = 2 - 1 :=
  do_dmi_output_length ⟨2, 2, fun _ _ => 0⟩ 1 [1/4, 1/4]
    do_dmi_two_agents_eval

/-- C7 counterexample: at three all-zero agents, two tasks, one category,
the code's normalization factor is `(3-1)·(1!)²·C(3,1)·C(3,1) = 18` — the
`ratio_of_factorials` arguments are `t1.shape()[0] = agent_n = 3`, the row
counts of the re-transposed halves — while the claimed formula with the
task-half sizes `1` and `1` gives `(3-1)·(1!)²·C(1,1)·C(1,1) = 2`; the
returned first payment `1/18` confirms the code divides by `18`. -/
theorem norm_factor_not_task_half_sizes :
    norm_factor 3 1 (first_half ⟨3, 2, fun _ _ => 0⟩)
      (second_half ⟨3, 2, fun _ _ => 0⟩) = .ok 18 ∧
    claimed_norm_factor 3 1 2 = .ok 2 ∧
    ((18 : ℚ) ≠ 2) ∧
    do_dmi ⟨3, 2, fun _ _ => 0⟩ 1 =
      .ok [1/18, 19/324, 1/18, 19/324, 1/18, 19/324] := by
  refine ⟨norm_factor_three_agents_eval, ?_, by norm_num,
    do_dmi_three_agents_eval⟩
  simp [claimed_norm_factor, checked_sub, checked_factorial, checked_pow,
    checked_mul, checked_div, calculate_factorials, Nat.factorial]

/-- C7 (amended): the normalization factor `calculate_payments` uses equals
`(agent_n - 1) * factorial(choice_n)^2 * r * r` where
`r = ratio_of_factorials(agent_n, choice_n)` — both ratio arguments are the
row count `agent_n` of the re-transposed halves, not the task-half sizes;
it is computed once, before the double loop, from the half shapes alone. -/
theorem norm_factor_uses_agent_count (answers : Array2) (choice_n : ℕ)
    (q : ℚ)
    (ht : ¬ answers.cols < 2 * choice_n) (ha : ¬ answers.rows ≤ 1)
    (hf2 : choice_n ! ^ 2 < 2 ^ 64)
    (hmul : (answers.rows - 1) * choice_n ! ^ 2 < 2 ^ 64)
    (hcf : calculate_factorials answers.rows choice_n = .ok q) :
    ∃ t1 t2 : Array2,
      do_dmi answers choice_n =
        calculate_payments answers.rows choice_n t1 t2 ∧
      t1.rows = answers.rows ∧ t2.rows = answers.rows ∧
      t1.cols = answers.cols / 2 ∧
      t2.cols = answers.cols - answers.cols / 2 ∧
      norm_factor answers.rows choice_n t1 t2 =
        .ok ((((answers.rows - 1) * choice_n ! ^ 2 : ℕ) : ℚ) * (q * q)) := by
  have hfac : choice_n ! < 2 ^ 64 :=
    lt_of_le_of_lt (Nat.le_self_pow two_ne_zero _) hf2
  exact ⟨first_half answers, second_half answers,
    do_dmi_eq answers choice_n ht ha,
    first_half_rows answers, second_half_rows answers,
    first_half_cols answers, second_half_cols answers,
    norm_factor_ok _ _ _ _ q q (by omega) hfac hf2 hmul
      (by rw [first_half_rows]; exact hcf)
      (by rw [second_half_rows]; exact hcf)⟩

/-- Witness for C7's amended theorem at the three-agent input:
`q = C(3,1) = 3` and the norm is `2 * 1 * (3 * 3) = 18`. -/
theorem norm_factor_uses_agent_count_witness :
    ∃ t1 t2 : Array2,
      do_dmi ⟨3, 2, fun _ _ => 0⟩ 1 = calculate_payments 3 1 t1 t2 ∧
      t1.rows = 3 ∧ t2.rows = 3 ∧ t1.cols = 1 ∧ t2.cols = 1 ∧
      norm_factor 3 1 t1 t2 =
        .ok ((((3 - 1) * 1 ! ^ 2 : ℕ) : ℚ) * (3 * 3)) := by
  refine norm_factor_uses_agent_count ⟨3, 2, fun _ _ => 0⟩ 1 3
    (by norm_num) (by norm_num) (by norm_num [Nat.factorial])
    (by norm_num [Nat.factorial]) ?_
  simp [calculate_factorials, checked_factorial, checked_sub, checked_mul,
    checked_div, Nat.factorial]
